import Mathlib

/-
  Verification of the FPGA k8s device plugin server (server.go) against its
  natural-language specification.  The Go source is shallowly embedded:
  Go maps are association lists (List (String, v)); Go string comparison
  and strings.EqualFold are modelled on the character data; fallible code
  returns Except.
-/

set_option autoImplicit false

namespace FPGAPlugin

/-- Device node paths, from the usage sites in server.go (dev.Nodes.Mgmt,
dev.Nodes.User, dev.Nodes.Qdma).  An empty string models an absent path. -/
structure DeviceNodes where
  Mgmt : String
  User : String
  Qdma : String
deriving DecidableEq, Repr

/-- One FPGA device record, with the fields server.go reads:
DBDF (bus id), SN (serial number), shellVer, timestamp, Healthy
(health string passed to the kubelet), and the device node paths. -/
structure Device where
  DBDF : String
  SN : String
  shellVer : String
  timestamp : String
  Healthy : String
  Nodes : DeviceNodes
deriving DecidableEq, Repr

/-- The Go zero value of Device: a lookup of a missing key in a Go map
yields this record (all strings empty). -/
def zeroDevice : Device := ⟨"", "", "", "", "", ⟨"", "", ""⟩⟩

/-- A Go map modelled as an association list of key-value entries. -/
abbrev DevMap := List (String × Device)

/-- Go map indexing m[k]: the value at key k, if present. -/
def mlookup {α : Type} : List (String × α) → String → Option α
  | [], _ => none
  | (k2, v) :: rest, k => if k2 = k then some v else mlookup rest k

/-- The key set of a Go map, as the list of entry keys. -/
def keysOf {α : Type} (m : List (String × α)) : List String := m.map Prod.fst

/-- The constant AWS_SN = "F1-Node" of server.go. -/
def AWS_SN : String := "F1-Node"

/-- strings.EqualFold, modelled as ASCII simple case folding on the
character data.  For every comparison the plugin performs the second
argument is the placeholder "F1-Node", whose characters have no
case-folding partners outside ASCII, so this model agrees with the Go
function on all inputs to those comparisons. -/
def EqualFold (a b : String) : Bool :=
  a.data.map Char.toLower == b.data.map Char.toLower

/-- IsContain of server.go lines 275-283: membership of item in items,
except that an item case-insensitively equal to AWS_SN is never reported
as contained. -/
def IsContain (items : List String) (item : String) : Bool :=
  match items with
  | [] => false
  | eachItem :: rest =>
    if eachItem == item && !(EqualFold item AWS_SN) then true
    else IsContain rest item

/-- deviceExists of server.go lines 178-185: a linear scan of the map keys. -/
def deviceExists (devices : DevMap) (id : String) : Bool :=
  match devices with
  | [] => false
  | (k, _) :: rest => if k = id then true else deviceExists rest id

lemma IsContain_eq (items : List String) (item : String) :
    IsContain items item = (decide (item ∈ items) && !(EqualFold item AWS_SN)) := by
  induction items with
  | nil => simp [IsContain]
  | cons x rest ih =>
    simp only [IsContain]
    by_cases hx : x = item
    · subst hx
      by_cases hf : EqualFold x AWS_SN
      · simp [hf, ih]
      · simp [hf]
    · have hbe : (x == item) = false := by simp [hx]
      have hne : ¬(item = x) := fun h => hx h.symm
      simp [hbe, ih, hne]

lemma mem_of_IsContain {items : List String} {item : String}
    (h : IsContain items item = true) : item ∈ items := by
  rw [IsContain_eq] at h
  simp only [Bool.and_eq_true, decide_eq_true_eq] at h
  exact h.1

lemma deviceExists_eq_isSome (devices : DevMap) (id : String) :
    deviceExists devices id = (mlookup devices id).isSome := by
  induction devices with
  | nil => rfl
  | cons p rest ih =>
    obtain ⟨k, v⟩ := p
    simp only [deviceExists, mlookup]
    by_cases hk : k = id
    · simp [hk]
    · simp [hk, ih]

lemma mem_keysOf_iff_isSome {α : Type} (m : List (String × α)) (k : String) :
    k ∈ keysOf m ↔ (mlookup m k).isSome := by
  induction m with
  | nil => simp [keysOf, mlookup]
  | cons p rest ih =>
    obtain ⟨k2, v⟩ := p
    by_cases hk : k2 = k
    · simp [keysOf, mlookup, hk]
    · simp only [keysOf, List.map_cons, List.mem_cons, mlookup, hk, if_false]
      constructor
      · rintro (h | h)
        · exact absurd h.symm hk
        · exact (ih.mp (by simpa [keysOf] using h))
      · intro h
        exact Or.inr (by simpa [keysOf] using ih.mpr h)

lemma mlookup_isSome_of_mem {α : Type} {m : List (String × α)} {k : String} {v : α}
    (h : (k, v) ∈ m) : (mlookup m k).isSome := by
  induction m with
  | nil => cases h
  | cons p rest ih =>
    rcases List.mem_cons.mp h with h1 | h1
    · subst h1; simp [mlookup]
    · obtain ⟨k2, v2⟩ := p
      by_cases hk : k2 = k <;> simp [mlookup, hk, ih h1]

/-- One entry of the ListAndWatch response (pluginapi.Device with the two
fields server.go sets: ID and Health). -/
structure AdvDevice where
  ID : String
  Health : String
deriving DecidableEq, Repr

/-- The device-filtering loop of sendDevices (server.go lines 288-301),
over the map values in iteration order, threading the SerialNums
accumulator.  Returns the final SerialNums list and the devices for which a
response entry is appended. -/
def sendLoop : List Device → List String → List String × List Device
  | [], serialNums => (serialNums, [])
  | device :: rest, serialNums =>
    if IsContain serialNums device.SN && device.SN != "" then
      sendLoop rest serialNums
    else if device.SN == "" then
      sendLoop rest serialNums
    else
      let r := sendLoop rest (serialNums ++ [device.SN])
      (r.1, device :: r.2)

/-- The devices kept by the sendDevices filtering loop, starting from an
empty SerialNums accumulator. -/
def keptDevices (devices : List Device) : List Device :=
  (sendLoop devices []).2

/-- sendDevices (server.go lines 285-303): the advertised resp.Devices
list, one (ID, Health) entry per kept device. -/
def sendDevices (devices : List Device) : List AdvDevice :=
  (keptDevices devices).map (fun d => ⟨d.DBDF, d.Healthy⟩)

/-- The number of devices in a list carrying a given serial number. -/
def countSN (devices : List Device) (sn : String) : Nat :=
  (devices.filter (fun d => d.SN == sn)).length

/-- A device-node grant (pluginapi.DeviceSpec fields set by server.go). -/
structure DeviceSpec where
  HostPath : String
  ContainerPath : String
  Permissions : String
deriving DecidableEq, Repr

/-- A mount (pluginapi.Mount fields set by server.go). -/
structure Mount where
  HostPath : String
  ContainerPath : String
  ReadOnly : Bool
deriving DecidableEq, Repr

/-- The device-node grant server.go emits for one node path: host path and
container path identical, permissions "rwm". -/
def nodeSpec (p : String) : DeviceSpec := ⟨p, p, "rwm"⟩

/-- The mount server.go emits alongside each device-node grant: host path
and container path identical, read-write. -/
def nodeMount (p : String) : Mount := ⟨p, p, false⟩

/-- The device-node grants Allocate appends for one resolved device
(server.go lines 363-397): the management node when its path is non-empty,
then the user node, then the qdma node when its path is non-empty. -/
def devSpecs (d : Device) : List DeviceSpec :=
  (if d.Nodes.Mgmt != "" then [nodeSpec d.Nodes.Mgmt] else []) ++
  [nodeSpec d.Nodes.User] ++
  (if d.Nodes.Qdma != "" then [nodeSpec d.Nodes.Qdma] else [])

/-- The mounts Allocate appends for one resolved device, in step with
devSpecs. -/
def devMounts (d : Device) : List Mount :=
  (if d.Nodes.Mgmt != "" then [nodeMount d.Nodes.Mgmt] else []) ++
  [nodeMount d.Nodes.User] ++
  (if d.Nodes.Qdma != "" then [nodeMount d.Nodes.Qdma] else [])

/-- The two error values Allocate can construct (server.go lines 349 and
352), tagged by which fmt.Errorf produced them. -/
inductive AllocError where
  | nonExisting (id : String)
  | unknownDevice (id : String)
deriving DecidableEq, Repr

/-- Whether an allocation error is the "Invalid allocation request with
non-existing device" error of server.go line 349. -/
def isNonExisting : AllocError → Bool
  | .nonExisting _ => true
  | .unknownDevice _ => false

/-- The device id an allocation error reports. -/
def errId : AllocError → String
  | .nonExisting id => id
  | .unknownDevice id => id

/-- The serial number Allocate reads through m.devices[id] (server.go line
338): the SN of the stored device, or of the Go zero-value Device when the
id is not a key. -/
def snOf (devices : DevMap) (id : String) : String :=
  match mlookup devices id with
  | some d => d.SN
  | none => zeroDevice.SN

/-- The inner sibling-collection loop of Allocate (server.go lines
337-341) for one requested id with serial number tsn: scan all devices of
the map and append the DBDF of every device with the same serial number
that is not case-insensitively the placeholder and not already collected. -/
def expandStep (devices : DevMap) (tsn : String) (arr : List String) : List String :=
  devices.foldl
    (fun arr p =>
      if p.2.SN == tsn && !(EqualFold p.2.SN AWS_SN) && !(IsContain arr p.2.DBDF) then
        arr ++ [p.2.DBDF]
      else arr)
    arr

/-- The id-expansion phase of Allocate (server.go lines 335-342).  The Go
range loop iterates over the indices of the original request slice, so
only the originally requested ids drive the expansion, each against the
full device map. -/
def expandIds (devices : DevMap) (req : List String) : List String :=
  req.foldl (fun arr id => expandStep devices (snOf devices id) arr) req

/-- The per-id resolution loop of Allocate (server.go lines 345-398):
look each id up (failing on a missing key with the nonExisting error,
then re-checking existence with deviceExists for the unknownDevice error)
and accumulate the device-node grants and mounts in order. -/
def allocLoop (devices : DevMap) : List String → Except AllocError (List DeviceSpec × List Mount)
  | [] => .ok ([], [])
  | id :: rest =>
    match mlookup devices id with
    | none => .error (.nonExisting id)
    | some dev =>
      if !(deviceExists devices id) then .error (.unknownDevice id)
      else
        match allocLoop devices rest with
        | .error e => .error e
        | .ok (ds, ms) => .ok (devSpecs dev ++ ds, devMounts dev ++ ms)

/-- One ContainerAllocateResponse: the Devices and Mounts lists server.go
accumulates for one container request. -/
structure ContainerAllocateResponse where
  Devices : List DeviceSpec
  Mounts : List Mount
deriving DecidableEq, Repr

/-- The handling of one container request in Allocate: expand the
requested ids by serial-number co-location, then resolve every id. -/
def allocateContainer (devices : DevMap) (req : List String) :
    Except AllocError ContainerAllocateResponse :=
  match allocLoop devices (expandIds devices req) with
  | .error e => .error e
  | .ok r => .ok ⟨r.1, r.2⟩

/-- Allocate (server.go lines 325-403) over the batch of container
requests: container responses in request order; the first error aborts
the whole call with no response (Go returns nil for the response). -/
def Allocate (devices : DevMap) : List (List String) → Except AllocError (List ContainerAllocateResponse)
  | [] => .ok []
  | creq :: rest =>
    match allocateContainer devices creq with
    | .error e => .error e
    | .ok cres =>
      match Allocate devices rest with
      | .error e => .error e
      | .ok l => .ok (cres :: l)

/-- Whether an Except value is a success. -/
def isOkE {ε α : Type} : Except ε α → Bool
  | .ok _ => true
  | .error _ => false

/-- All device-node grants of a response, containers joined in order;
empty for a failed call. -/
def allGrants (res : Except AllocError (List ContainerAllocateResponse)) : List DeviceSpec :=
  match res with
  | .error _ => []
  | .ok l => (l.map (fun c => c.Devices)).flatten

/-- Every entry key equals the DBDF of its device, as holds for the maps
NewFPGADevicePlugin builds (server.go line 79: id := device.DBDF). -/
def WellKeyed (devices : DevMap) : Prop :=
  ∀ p ∈ devices, p.2.DBDF = p.1

lemma allocLoop_error_shape (devices : DevMap) :
    ∀ (ids : List String) (e : AllocError), allocLoop devices ids = .error e →
      isNonExisting e = true ∧ mlookup devices (errId e) = none := by
  intro ids
  induction ids with
  | nil => intro e h; simp [allocLoop] at h
  | cons id rest ih =>
    intro e h
    simp only [allocLoop] at h
    cases hm : mlookup devices id with
    | none =>
      simp only [hm] at h
      cases h
      exact ⟨rfl, hm⟩
    | some dev =>
      have hde : deviceExists devices id = true := by
        rw [deviceExists_eq_isSome, hm]; rfl
      simp only [hm, hde, Bool.not_true, Bool.false_eq_true, if_false] at h
      cases hl : allocLoop devices rest with
      | error e2 =>
        simp only [hl] at h
        cases h
        exact ih _ hl
      | ok pr =>
        simp only [hl] at h
        cases h

lemma Allocate_error_shape (devices : DevMap) :
    ∀ (reqs : List (List String)) (e : AllocError), Allocate devices reqs = .error e →
      isNonExisting e = true ∧ mlookup devices (errId e) = none := by
  intro reqs
  induction reqs with
  | nil => intro e h; simp [Allocate] at h
  | cons creq rest ih =>
    intro e h
    simp only [Allocate] at h
    cases hc : allocateContainer devices creq with
    | error e2 =>
      simp only [hc] at h
      cases h
      unfold allocateContainer at hc
      cases hl : allocLoop devices (expandIds devices creq) with
      | error e3 =>
        simp only [hl] at hc
        cases hc
        exact allocLoop_error_shape devices _ _ hl
      | ok pr =>
        simp only [hl] at hc
        cases hc
    | ok cres =>
      simp only [hc] at h
      cases hr : Allocate devices rest with
      | error e2 =>
        simp only [hr] at h
        cases h
        exact ih _ hr
      | ok l =>
        simp only [hr] at h
        cases h

lemma mem_expandStep_mono (devices : DevMap) (tsn : String) :
    ∀ {arr : List String} {a : String}, a ∈ arr → a ∈ expandStep devices tsn arr := by
  induction devices with
  | nil => intro arr a h; simpa [expandStep] using h
  | cons p rest ih =>
    intro arr a h
    simp only [expandStep, List.foldl_cons] at *
    apply ih
    split
    · exact List.mem_append_left _ h
    · exact h

lemma mem_expandIds_of_mem_req (devices : DevMap) (req : List String) {a : String}
    (h : a ∈ req) : a ∈ expandIds devices req := by
  unfold expandIds
  have aux : ∀ (l acc : List String), a ∈ acc →
      a ∈ l.foldl (fun arr id => expandStep devices (snOf devices id) arr) acc := by
    intro l
    induction l with
    | nil => intro acc hacc; simpa using hacc
    | cons x xs ih =>
      intro acc hacc
      simp only [List.foldl_cons]
      exact ih _ (mem_expandStep_mono devices _ hacc)
  exact aux req req h

lemma allocLoop_fails_of_missing (devices : DevMap) :
    ∀ (ids : List String) (id : String), id ∈ ids → mlookup devices id = none →
      isOkE (allocLoop devices ids) = false := by
  intro ids
  induction ids with
  | nil => intro id h; cases h
  | cons id0 rest ih =>
    intro id h hmiss
    simp only [allocLoop]
    cases hm : mlookup devices id0 with
    | none => rfl
    | some dev =>
      have hde : deviceExists devices id0 = true := by
        rw [deviceExists_eq_isSome, hm]; rfl
      have hne : id ≠ id0 := by
        intro hEq; rw [hEq, hm] at hmiss; cases hmiss
      have hmem : id ∈ rest := by
        rcases List.mem_cons.mp h with h1 | h1
        · exact absurd h1 hne
        · exact h1
      simp only [hde, Bool.not_true, Bool.false_eq_true, if_false]
      cases hl : allocLoop devices rest with
      | error e => rfl
      | ok pr =>
        have := ih id hmem hmiss
        rw [hl] at this
        cases this

/-- Claim C10: IsContain(items, item) is true exactly when item occurs in
items and is not case-insensitively equal to the placeholder "F1-Node";
in particular the case variants "f1-node" and "F1-NODE" are never reported
as contained, so such devices are treated as placeholder devices. -/
theorem C10_iscontain_placeholder_case_insensitive :
    (∀ (items : List String) (item : String),
        IsContain items item = true ↔ item ∈ items ∧ EqualFold item AWS_SN = false) ∧
    (∀ items : List String,
        IsContain items "f1-node" = false ∧ IsContain items "F1-NODE" = false) := by
  have hmain : ∀ (items : List String) (item : String),
      IsContain items item = true ↔ item ∈ items ∧ EqualFold item AWS_SN = false := by
    intro items item
    rw [IsContain_eq]
    constructor
    · intro h
      simp only [Bool.and_eq_true, decide_eq_true_eq, Bool.not_eq_true'] at h
      exact h
    · intro ⟨h1, h2⟩
      simp [h1, h2]
  refine ⟨hmain, ?_⟩
  intro items
  constructor
  · rw [IsContain_eq]
    have : EqualFold "f1-node" AWS_SN = true := by decide
    simp [this]
  · rw [IsContain_eq]
    have : EqualFold "F1-NODE" AWS_SN = true := by decide
    simp [this]

/-- Claim C9: deviceExists agrees extensionally with map membership, so in
Allocate the second, deviceExists-guarded error branch (the unknownDevice
error) can never be taken. -/
theorem C9_redundant_existence_check_unreachable :
    (∀ (devices : DevMap) (id : String),
        deviceExists devices id = (mlookup devices id).isSome) ∧
    (∀ (devices : DevMap) (reqs : List (List String)) (id : String),
        Allocate devices reqs ≠ .error (.unknownDevice id)) := by
  refine ⟨deviceExists_eq_isSome, ?_⟩
  intro devices reqs id h
  have := (Allocate_error_shape devices reqs _ h).1
  simp [isNonExisting] at this

/-- Claim C2: if any container request of a batch lists a device id that
is not a key of the device map, the whole Allocate call fails, the error
is the non-existing-device error, and no container receives any grant. -/
theorem C2_allocation_atomicity (devices : DevMap) (reqs : List (List String))
    (creq : List String) (id : String)
    (hc : creq ∈ reqs) (hid : id ∈ creq) (hmiss : mlookup devices id = none) :
    isOkE (Allocate devices reqs) = false ∧
    allGrants (Allocate devices reqs) = [] ∧
    (∀ e, Allocate devices reqs = .error e →
      isNonExisting e = true ∧ mlookup devices (errId e) = none) := by
  have hfail : isOkE (Allocate devices reqs) = false := by
    induction reqs with
    | nil => cases hc
    | cons r rest ih =>
      simp only [Allocate]
      rcases List.mem_cons.mp hc with h1 | h1
      · subst h1
        have hidx : id ∈ expandIds devices creq := mem_expandIds_of_mem_req devices creq hid
        have := allocLoop_fails_of_missing devices (expandIds devices creq) id hidx hmiss
        unfold allocateContainer
        cases hl : allocLoop devices (expandIds devices creq) with
        | error e => rfl
        | ok pr => rw [hl] at this; cases this
      · cases hcr : allocateContainer devices r with
        | error e => rfl
        | ok cres =>
          cases hr : Allocate devices rest with
          | error e => rfl
          | ok l =>
            have := ih h1
            rw [hr] at this
            cases this
  refine ⟨hfail, ?_, Allocate_error_shape devices reqs⟩
  cases hres : Allocate devices reqs with
  | error e => rfl
  | ok l => rw [hres] at hfail; cases hfail

/-- Sample device with serial number "ABC" and only a user node. -/
def sampleA : Device := ⟨"a", "ABC", "v1", "t1", "Healthy", ⟨"", "ua", ""⟩⟩

/-- Sample device with serial number "ABC" and all three nodes. -/
def sampleB : Device := ⟨"b", "ABC", "v1", "t1", "Healthy", ⟨"mb", "ub", "qb"⟩⟩

/-- Sample device with an empty serial number. -/
def sampleC : Device := ⟨"c", "", "v1", "t1", "Healthy", ⟨"", "uc", ""⟩⟩

/-- Second sample device with an empty serial number. -/
def sampleD : Device := ⟨"d", "", "v1", "t1", "Healthy", ⟨"", "ud", ""⟩⟩

/-- Sample device with the case-variant placeholder serial "f1-node". -/
def sampleX : Device := ⟨"a", "f1-node", "v1", "t1", "Healthy", ⟨"", "ux", ""⟩⟩

/-- Second sample device with the case-variant placeholder serial. -/
def sampleY : Device := ⟨"b", "f1-node", "v1", "t1", "Healthy", ⟨"", "uy", ""⟩⟩

/-- A two-device map sharing the real serial number "ABC". -/
def sampleMap : DevMap := [("a", sampleA), ("b", sampleB)]

/-- A two-device map whose devices both have an empty serial number. -/
def sampleMapEmptySN : DevMap := [("c", sampleC), ("d", sampleD)]

/-- A two-device map sharing the case-variant placeholder serial. -/
def sampleMapFold : DevMap := [("a", sampleX), ("b", sampleY)]

/-- Witness for C2 at a concrete input: a one-container batch requesting
the unknown id "zz" against sampleMap fails. -/
theorem C2_allocation_atomicity_witness :
    ((["zz"] : List String) ∈ [(["zz"] : List String)] ∧
      ("zz" : String) ∈ (["zz"] : List String) ∧
      mlookup sampleMap "zz" = none) ∧
    isOkE (Allocate sampleMap [["zz"]]) = false :=
  ⟨⟨by decide, by decide, by decide⟩,
    (C2_allocation_atomicity sampleMap [["zz"]] ["zz"] "zz"
      (by decide) (by decide) (by decide)).1⟩

lemma countSN_cons (d : Device) (rest : List Device) (sn : String) :
    countSN (d :: rest) sn = (if d.SN = sn then 1 else 0) + countSN rest sn := by
  simp only [countSN, List.filter_cons]
  by_cases h : d.SN = sn
  · simp [h, Nat.add_comm]
  · simp [h]

lemma sendLoop_count (sn : String) :
    ∀ (devs : List Device) (seen : List String),
      (sn ≠ "" → EqualFold sn AWS_SN = false →
        countSN (sendLoop devs seen).2 sn =
          if sn ∈ seen then 0 else min (countSN devs sn) 1) ∧
      (EqualFold sn AWS_SN = true →
        countSN (sendLoop devs seen).2 sn = countSN devs sn) ∧
      countSN (sendLoop devs seen).2 "" = 0 := by
  intro devs
  induction devs with
  | nil =>
    intro seen
    refine ⟨?_, ?_, ?_⟩
    · intro _ _
      simp [sendLoop, countSN]
    · intro _; rfl
    · rfl
  | cons d rest ih =>
    intro seen
    simp only [sendLoop]
    by_cases hc1 : (IsContain seen d.SN && d.SN != "") = true
    · rw [if_pos hc1]
      have hskip1 : IsContain seen d.SN = true := (Bool.and_eq_true .. ▸ hc1).1
      have hskip2 : (d.SN != "") = true := (Bool.and_eq_true .. ▸ hc1).2
      have hdne : d.SN ≠ "" := by simpa using hskip2
      refine ⟨?_, ?_, (ih seen).2.2⟩
      · intro hne hfold
        by_cases hdsn : d.SN = sn
        · have hmem : sn ∈ seen := by
            have := mem_of_IsContain hskip1
            rwa [hdsn] at this
          rw [if_pos hmem]
          have := (ih seen).1 hne hfold
          rwa [if_pos hmem] at this
        · rw [countSN_cons, if_neg hdsn]
          have := (ih seen).1 hne hfold
          simpa using this
      · intro hfold
        by_cases hdsn : d.SN = sn
        · exfalso
          rw [IsContain_eq, hdsn, hfold] at hskip1
          simp at hskip1
        · rw [countSN_cons, if_neg hdsn]
          have := (ih seen).2.1 hfold
          simpa using this
    · rw [if_neg hc1]
      by_cases hc2 : (d.SN == "") = true
      · rw [if_pos hc2]
        have hdsn0 : d.SN = "" := by simpa using hc2
        refine ⟨?_, ?_, (ih seen).2.2⟩
        · intro hne hfold
          have hdsn : d.SN ≠ sn := by rw [hdsn0]; exact fun h => hne h.symm
          rw [countSN_cons, if_neg hdsn]
          have := (ih seen).1 hne hfold
          simpa using this
        · intro hfold
          have hne : sn ≠ "" := by
            intro h
            rw [h] at hfold
            exact absurd hfold (by decide)
          have hdsn : d.SN ≠ sn := by rw [hdsn0]; exact fun h => hne h.symm
          rw [countSN_cons, if_neg hdsn]
          have := (ih seen).2.1 hfold
          simpa using this
      · rw [if_neg hc2]
        have hdne : d.SN ≠ "" := by simpa using hc2
        have hnotc : IsContain seen d.SN = false := by
          cases h : IsContain seen d.SN with
          | false => rfl
          | true =>
            exfalso
            apply hc1
            simp [h, hdne]
        refine ⟨?_, ?_, ?_⟩
        · intro hne hfold
          by_cases hdsn : d.SN = sn
          · have hnm : sn ∉ seen := by
              intro hmem
              rw [IsContain_eq, hdsn, hfold] at hnotc
              simp [hmem] at hnotc
            rw [if_neg hnm]
            have hih := (ih (seen ++ [d.SN])).1 hne hfold
            have hmem2 : sn ∈ seen ++ [d.SN] := by
              rw [hdsn]
              exact List.mem_append_right _ (List.mem_singleton.mpr rfl)
            rw [if_pos hmem2] at hih
            rw [countSN_cons, if_pos hdsn, countSN_cons, if_pos hdsn, hih]
            omega
          · have hih := (ih (seen ++ [d.SN])).1 hne hfold
            have hmemiff : sn ∈ seen ++ [d.SN] ↔ sn ∈ seen := by
              simp [List.mem_append]
              exact fun h => absurd h.symm hdsn
            rw [countSN_cons, if_neg hdsn, countSN_cons, if_neg hdsn]
            by_cases hmem : sn ∈ seen
            · rw [if_pos hmem]
              rw [if_pos (hmemiff.mpr hmem)] at hih
              simpa using hih
            · rw [if_neg hmem]
              rw [if_neg (fun h => hmem (hmemiff.mp h))] at hih
              simpa using hih
        · intro hfold
          by_cases hdsn : d.SN = sn
          · rw [countSN_cons, if_pos hdsn, countSN_cons, if_pos hdsn]
            have := (ih (seen ++ [d.SN])).2.1 hfold
            omega
          · rw [countSN_cons, if_neg hdsn, countSN_cons, if_neg hdsn]
            have := (ih (seen ++ [d.SN])).2.1 hfold
            simpa using this
        · rw [countSN_cons, if_neg hdne]
          have := (ih (seen ++ [d.SN])).2.2
          simpa using this

/-- Claim C5, amended: the advertised list has one (ID, Health) entry per
kept device; for every serial number that is non-empty and not
case-insensitively equal to the placeholder, exactly one carrying device
is kept (one representative of the co-located group); every device whose
serial number is case-insensitively equal to the placeholder is kept
independently; no device with an empty serial number is kept. -/
theorem C5_advertisement_dedup (devs : List Device) (sn : String) :
    sendDevices devs = (keptDevices devs).map (fun d => AdvDevice.mk d.DBDF d.Healthy) ∧
    (sn ≠ "" → EqualFold sn AWS_SN = false →
      countSN (keptDevices devs) sn = min (countSN devs sn) 1) ∧
    (EqualFold sn AWS_SN = true →
      countSN (keptDevices devs) sn = countSN devs sn) ∧
    countSN (keptDevices devs) "" = 0 := by
  have h := sendLoop_count sn devs []
  refine ⟨rfl, ?_, h.2.1, h.2.2⟩
  intro h1 h2
  have h3 := h.1 h1 h2
  simpa [keptDevices] using h3

/-- Counterexample for claim C5 as stated: "f1-node" is a non-empty serial
number different from the string "F1-Node", yet both devices carrying it
are advertised, because the code tests the placeholder case-insensitively;
so the advertised list does not contain exactly one entry per distinct
non-empty serial number different from "F1-Node". -/
theorem C5_counterexample :
    ("f1-node" : String) ≠ "" ∧ ("f1-node" : String) ≠ AWS_SN ∧
    countSN (keptDevices [sampleX, sampleY]) "f1-node" = 2 :=
  ⟨by decide, by decide, by decide⟩

/-- Witness for C5 on the spec example with serials {"ABC", "ABC", ""}:
exactly one ABC device is kept and the empty-serial device is dropped. -/
theorem C5_advertisement_dedup_witness :
    (("ABC" : String) ≠ "" ∧ EqualFold "ABC" AWS_SN = false) ∧
    countSN (keptDevices [sampleA, sampleB, sampleC]) "ABC" =
      min (countSN [sampleA, sampleB, sampleC] "ABC") 1 ∧
    countSN (keptDevices [sampleA, sampleB, sampleC]) "" = 0 :=
  ⟨⟨by decide, by decide⟩,
    (C5_advertisement_dedup [sampleA, sampleB, sampleC] "ABC").2.1
      (by decide) (by decide),
    (C5_advertisement_dedup [sampleA, sampleB, sampleC] "ABC").2.2.2⟩

lemma mlookup_mem {α : Type} : ∀ {m : List (String × α)} {k : String} {v : α},
    mlookup m k = some v → (k, v) ∈ m := by
  intro m
  induction m with
  | nil => intro k v h; cases h
  | cons p rest ih =>
    intro k v h
    obtain ⟨k2, v2⟩ := p
    simp only [mlookup] at h
    by_cases hk : k2 = k
    · rw [if_pos hk] at h
      cases h
      subst hk
      exact List.mem_cons_self ..
    · rw [if_neg hk] at h
      exact List.mem_cons_of_mem _ (ih h)

lemma mlookup_of_mem_nodup {α : Type} : ∀ {m : List (String × α)},
    (keysOf m).Nodup → ∀ {k : String} {v : α}, (k, v) ∈ m → mlookup m k = some v := by
  intro m
  induction m with
  | nil => intro _ k v h; cases h
  | cons p rest ih =>
    intro hnd k v h
    obtain ⟨k2, v2⟩ := p
    have hnd2 : (keysOf rest).Nodup := (List.nodup_cons.mp hnd).2
    have hk2 : k2 ∉ keysOf rest := (List.nodup_cons.mp hnd).1
    rcases List.mem_cons.mp h with h1 | h1
    · cases h1
      simp [mlookup]
    · have hkm : k ∈ keysOf rest := List.mem_map_of_mem _ h1
      have hk : k2 ≠ k := fun hEq => hk2 (hEq ▸ hkm)
      simp only [mlookup, if_neg hk]
      exact ih hnd2 h1

lemma expandStep_mem_cases (tsn : String) :
    ∀ (devices : DevMap) {arr : List String} {a : String}, a ∈ expandStep devices tsn arr →
      a ∈ arr ∨ ∃ p ∈ devices, p.2.DBDF = a ∧ p.2.SN = tsn := by
  intro devices
  induction devices with
  | nil => intro arr a h; exact Or.inl (by simpa [expandStep] using h)
  | cons p rest ih =>
    intro arr a h
    simp only [expandStep, List.foldl_cons] at h
    rcases ih h with h1 | ⟨q, hq, hqa⟩
    · by_cases hc : (p.2.SN == tsn && !(EqualFold p.2.SN AWS_SN) && !(IsContain arr p.2.DBDF)) = true
      · rw [if_pos hc] at h1
        rcases List.mem_append.mp h1 with h2 | h2
        · exact Or.inl h2
        · have ha : a = p.2.DBDF := by simpa using h2
          have hsn : p.2.SN = tsn := by
            have := (Bool.and_eq_true .. ▸ (Bool.and_eq_true .. ▸ hc).1).1
            simpa using this
          exact Or.inr ⟨p, List.mem_cons_self .., ha.symm, hsn⟩
      · rw [if_neg hc] at h1
        exact Or.inl h1
    · exact Or.inr ⟨q, List.mem_cons_of_mem _ hq, hqa⟩

lemma expandIds_mem_cases (devices : DevMap) (req : List String) {a : String}
    (h : a ∈ expandIds devices req) :
    a ∈ req ∨ ∃ p ∈ devices, p.2.DBDF = a ∧ ∃ r ∈ req, p.2.SN = snOf devices r := by
  unfold expandIds at h
  have aux : ∀ (l acc : List String), a ∈ l.foldl
        (fun arr id => expandStep devices (snOf devices id) arr) acc →
      a ∈ acc ∨ ∃ p ∈ devices, p.2.DBDF = a ∧ ∃ r ∈ l, p.2.SN = snOf devices r := by
    intro l
    induction l with
    | nil => intro acc hacc; exact Or.inl (by simpa using hacc)
    | cons x xs ih =>
      intro acc hacc
      simp only [List.foldl_cons] at hacc
      rcases ih _ hacc with h1 | ⟨p, hp, hpa, r, hr, hrs⟩
      · rcases expandStep_mem_cases _ devices h1 with h2 | ⟨p, hp, hpa, hps⟩
        · exact Or.inl h2
        · exact Or.inr ⟨p, hp, hpa, x, List.mem_cons_self .., hps⟩
      · exact Or.inr ⟨p, hp, hpa, r, List.mem_cons_of_mem _ hr, hrs⟩
  exact aux req req h

lemma expandStep_mem_sibling (tsn : String) :
    ∀ (devices : DevMap) {k : String} {d : Device}, (k, d) ∈ devices → d.SN = tsn →
      EqualFold d.SN AWS_SN = false → ∀ arr, d.DBDF ∈ expandStep devices tsn arr := by
  intro devices
  induction devices with
  | nil => intro k d h; cases h
  | cons p rest ih =>
    intro k d hmem hsn hfold arr
    simp only [expandStep, List.foldl_cons]
    rcases List.mem_cons.mp hmem with h1 | h1
    · cases h1
      show d.DBDF ∈ expandStep rest tsn _
      by_cases hic : IsContain arr d.DBDF = true
      · have hin : d.DBDF ∈ arr := mem_of_IsContain hic
        apply mem_expandStep_mono
        split
        · exact List.mem_append_left _ hin
        · exact hin
      · have hfold2 : EqualFold tsn AWS_SN = false := hsn ▸ hfold
        have hcond : (d.SN == tsn && !(EqualFold d.SN AWS_SN) && !(IsContain arr d.DBDF)) = true := by
          simp [hsn, hfold2, hic]
        rw [if_pos hcond]
        exact mem_expandStep_mono rest tsn
          (List.mem_append_right _ (List.mem_singleton.mpr rfl))
    · exact ih h1 hsn hfold _

lemma expandStep_id_of_fold (devices : DevMap) (tsn : String)
    (hfold : EqualFold tsn AWS_SN = true) : ∀ arr, expandStep devices tsn arr = arr := by
  induction devices with
  | nil => intro arr; rfl
  | cons p rest ih =>
    intro arr
    simp only [expandStep, List.foldl_cons]
    have hcond : (p.2.SN == tsn && !(EqualFold p.2.SN AWS_SN) && !(IsContain arr p.2.DBDF)) = false := by
      by_cases hsn : p.2.SN = tsn
      · simp [hsn, hfold]
      · simp [hsn]
    rw [hcond]
    simp only [Bool.false_eq_true, if_false]
    exact ih arr

lemma expandIds_singleton (devices : DevMap) (id : String) :
    expandIds devices [id] = expandStep devices (snOf devices id) [id] := rfl

lemma expandIds_all_exist (devices : DevMap) (hwk : WellKeyed devices)
    (req : List String) (hreq : ∀ r ∈ req, (mlookup devices r).isSome) :
    ∀ a ∈ expandIds devices req, (mlookup devices a).isSome := by
  intro a ha
  rcases expandIds_mem_cases devices req ha with h1 | ⟨p, hp, hpa, _⟩
  · exact hreq a h1
  · have hkey : p.2.DBDF = p.1 := hwk p hp
    rw [← hpa, hkey]
    exact mlookup_isSome_of_mem (by simpa using hp)

lemma allocLoop_ok_of_all_exist (devices : DevMap) :
    ∀ (ids : List String), (∀ a ∈ ids, (mlookup devices a).isSome) →
      ∃ pr, allocLoop devices ids = .ok pr := by
  intro ids
  induction ids with
  | nil => intro _; exact ⟨([], []), rfl⟩
  | cons id rest ih =>
    intro h
    have hid := h id (List.mem_cons_self ..)
    cases hm : mlookup devices id with
    | none => rw [hm] at hid; cases hid
    | some dev =>
      have hde : deviceExists devices id = true := by
        rw [deviceExists_eq_isSome, hm]; rfl
      obtain ⟨pr, hpr⟩ := ih (fun a ha => h a (List.mem_cons_of_mem _ ha))
      refine ⟨(devSpecs dev ++ pr.1, devMounts dev ++ pr.2), ?_⟩
      simp [allocLoop, hm, hde, hpr]

lemma allocLoop_ok_subset (devices : DevMap) :
    ∀ (ids : List String) (ds : List DeviceSpec) (ms : List Mount),
      allocLoop devices ids = .ok (ds, ms) →
      ∀ (id : String) (d : Device), id ∈ ids → mlookup devices id = some d →
        ∀ e ∈ devSpecs d, e ∈ ds := by
  intro ids
  induction ids with
  | nil => intro ds ms h id d hmem; cases hmem
  | cons id0 rest ih =>
    intro ds ms h id d hmem hl e he
    simp only [allocLoop] at h
    cases hm : mlookup devices id0 with
    | none => rw [hm] at h; cases h
    | some dev =>
      have hde : deviceExists devices id0 = true := by
        rw [deviceExists_eq_isSome, hm]; rfl
      simp only [hm, hde, Bool.not_true, Bool.false_eq_true, if_false] at h
      cases hrec : allocLoop devices rest with
      | error e2 => rw [hrec] at h; cases h
      | ok pr =>
        rw [hrec] at h
        cases h
        rcases List.mem_cons.mp hmem with h1 | h1
        · subst h1
          rw [hm] at hl
          cases hl
          exact List.mem_append_left _ he
        · exact List.mem_append_right _ (ih pr.1 pr.2 (by rw [hrec]) id d h1 hl e he)

lemma allocate_singleton_ok (devices : DevMap) (did : String)
    (hwk : WellKeyed devices) (hd : (mlookup devices did).isSome) :
    ∃ ds ms, Allocate devices [[did]] = .ok [⟨ds, ms⟩] ∧
      allocLoop devices (expandIds devices [did]) = .ok (ds, ms) := by
  have hall : ∀ a ∈ expandIds devices [did], (mlookup devices a).isSome :=
    expandIds_all_exist devices hwk [did] (by
      intro r hr
      rcases List.mem_singleton.mp hr with rfl
      exact hd)
  obtain ⟨pr, hpr⟩ := allocLoop_ok_of_all_exist devices _ hall
  refine ⟨pr.1, pr.2, ?_, by rw [hpr]⟩
  simp [Allocate, allocateContainer, hpr]

/-- Claim C1, amended: for devices X and Y of the same map with equal,
non-empty serial numbers that are not case-insensitively equal to the
placeholder "F1-Node", an Allocate container request listing the id of X
succeeds and also grants all device nodes of Y (and symmetrically, by
instantiating the theorem with X and Y swapped); for two devices whose
shared serial number is case-insensitively equal to the placeholder,
allocating one never adds the other. -/
theorem C1_colocation_symmetry (devices : DevMap) (xid yid : String) (X Y : Device)
    (hwk : WellKeyed devices)
    (hx : mlookup devices xid = some X) (hy : mlookup devices yid = some Y)
    (hsn : X.SN = Y.SN) (hne : xid ≠ yid) :
    (X.SN ≠ "" → EqualFold X.SN AWS_SN = false →
      isOkE (Allocate devices [[xid]]) = true ∧
      ∀ e ∈ devSpecs Y, e ∈ allGrants (Allocate devices [[xid]])) ∧
    (EqualFold X.SN AWS_SN = true → yid ∉ expandIds devices [xid]) := by
  obtain ⟨ds, ms, hok, hloop⟩ :=
    allocate_singleton_ok devices xid hwk (by rw [hx]; rfl)
  have hsnOf : snOf devices xid = X.SN := by simp [snOf, hx]
  constructor
  · intro hEmp hfold
    refine ⟨by rw [hok]; rfl, ?_⟩
    intro e he
    have hymem : (yid, Y) ∈ devices := mlookup_mem hy
    have hykey : Y.DBDF = yid := hwk (yid, Y) hymem
    have hyfold : EqualFold Y.SN AWS_SN = false := hsn ▸ hfold
    have hyin : yid ∈ expandIds devices [xid] := by
      rw [expandIds_singleton, hsnOf]
      have := expandStep_mem_sibling X.SN devices hymem hsn.symm hyfold [xid]
      rwa [hykey] at this
    have hmem := allocLoop_ok_subset devices _ ds ms hloop yid Y hyin hy e he
    rw [hok]
    simpa [allGrants] using hmem
  · intro hfold
    rw [expandIds_singleton, hsnOf, expandStep_id_of_fold devices X.SN hfold]
    intro hmem
    exact hne ((List.mem_singleton.mp hmem).symm)

/-- Counterexample for claim C1 as stated: sampleX and sampleY share the
non-empty serial number "f1-node", which is not equal to the string
"F1-Node", yet allocating the id "a" grants only the nodes of sampleX:
the code tests the placeholder case-insensitively, so the two devices are
treated as independent and sampleY is never pulled into the grant. -/
theorem C1_counterexample :
    sampleX.SN = sampleY.SN ∧ sampleX.SN ≠ "" ∧ sampleX.SN ≠ AWS_SN ∧
    Allocate sampleMapFold [["a"]] = .ok [⟨[nodeSpec "ux"], [nodeMount "ux"]⟩] ∧
    nodeSpec sampleY.Nodes.User ∉ [nodeSpec "ux"] := by
  refine ⟨by decide, by decide, by decide, by rfl, by decide⟩

/-- Witness for C1 on sampleMap: the devices with ids "a" and "b" share
the real serial number "ABC"; allocating "a" succeeds and grants the user
node of the device with id "b". -/
theorem C1_colocation_symmetry_witness :
    (sampleA.SN = sampleB.SN ∧ sampleA.SN ≠ "" ∧
      EqualFold sampleA.SN AWS_SN = false ∧ ("a" : String) ≠ "b") ∧
    isOkE (Allocate sampleMap [["a"]]) = true ∧
    nodeSpec sampleB.Nodes.User ∈ allGrants (Allocate sampleMap [["a"]]) := by
  have h := (C1_colocation_symmetry sampleMap "a" "b" sampleA sampleB
      (by unfold WellKeyed; decide) (by decide) (by decide) (by decide)
      (by decide)).1 (by decide) (by decide)
  exact ⟨⟨by decide, by decide, by decide, by decide⟩, h.1,
    h.2 _ (by decide)⟩

/-- Claim C6, amended: a device D with an empty serial number is still
individually allocatable: requesting exactly the id of D succeeds and
grants all device nodes of D.  However, the expansion treats the empty
serial number like a shared one: every device of the map whose serial
number is empty is pulled into the request and granted, and conversely
everything pulled in besides D has an empty serial number, so D is
granted alone exactly when it is the only empty-serial device in the
map (the last two conjuncts give the two directions). -/
theorem C6_empty_serial_allocatable (devices : DevMap) (did : String) (D : Device)
    (hwk : WellKeyed devices) (hnd : (keysOf devices).Nodup)
    (hd : mlookup devices did = some D) (hsn : D.SN = "") :
    isOkE (Allocate devices [[did]]) = true ∧
    (∀ e ∈ devSpecs D, e ∈ allGrants (Allocate devices [[did]])) ∧
    (∀ (eid : String) (E : Device), mlookup devices eid = some E → E.SN = "" →
      eid ∈ expandIds devices [did] ∧
      ∀ e ∈ devSpecs E, e ∈ allGrants (Allocate devices [[did]])) ∧
    (∀ id ∈ expandIds devices [did], id = did ∨ snOf devices id = "") ∧
    ((∀ p ∈ devices, p.2.SN = "" → p.1 = did) →
      ∀ id ∈ expandIds devices [did], id = did) ∧
    ((∃ p ∈ devices, p.2.SN = "" ∧ p.1 ≠ did) →
      ¬(∀ id ∈ expandIds devices [did], id = did)) := by
  obtain ⟨ds, ms, hok, hloop⟩ :=
    allocate_singleton_ok devices did hwk (by rw [hd]; rfl)
  have hsnOf : snOf devices did = "" := by simp [snOf, hd, hsn]
  have hcases : ∀ id ∈ expandIds devices [did],
      id = did ∨ ∃ p ∈ devices, p.2.DBDF = id ∧ p.2.SN = "" := by
    intro id hid
    rw [expandIds_singleton, hsnOf] at hid
    rcases expandStep_mem_cases "" devices hid with h1 | ⟨p, hp, hpa, hps⟩
    · exact Or.inl (List.mem_singleton.mp h1)
    · exact Or.inr ⟨p, hp, hpa, hps⟩
  have hdin : did ∈ expandIds devices [did] :=
    mem_expandIds_of_mem_req devices [did] (List.mem_singleton.mpr rfl)
  have hpull : ∀ (eid : String) (E : Device), mlookup devices eid = some E →
      E.SN = "" → eid ∈ expandIds devices [did] := by
    intro eid E hE hEsn
    have hmemE : (eid, E) ∈ devices := mlookup_mem hE
    have hkeyE : E.DBDF = eid := hwk (eid, E) hmemE
    rw [expandIds_singleton, hsnOf]
    have hsib := expandStep_mem_sibling "" devices hmemE hEsn
      (by rw [hEsn]; decide) [did]
    rwa [hkeyE] at hsib
  refine ⟨by rw [hok]; rfl, ?_, ?_, ?_, ?_, ?_⟩
  · intro e he
    have hmem := allocLoop_ok_subset devices _ ds ms hloop did D hdin hd e he
    rw [hok]
    simpa [allGrants] using hmem
  · intro eid E hE hEsn
    refine ⟨hpull eid E hE hEsn, ?_⟩
    intro e he
    have hmem := allocLoop_ok_subset devices _ ds ms hloop eid E
      (hpull eid E hE hEsn) hE e he
    rw [hok]
    simpa [allGrants] using hmem
  · intro id hid
    rcases hcases id hid with h1 | ⟨p, hp, hpa, hps⟩
    · exact Or.inl h1
    · right
      have hkey : p.2.DBDF = p.1 := hwk p hp
      have hlp : mlookup devices p.1 = some p.2 := mlookup_of_mem_nodup hnd (by simpa using hp)
      rw [← hpa, hkey]
      simp [snOf, hlp, hps]
  · intro huniq id hid
    rcases hcases id hid with h1 | ⟨p, hp, hpa, hps⟩
    · exact h1
    · have hkey : p.2.DBDF = p.1 := hwk p hp
      rw [← hpa, hkey]
      exact huniq p hp hps
  · rintro ⟨p, hp, hpsn, hpne⟩ hall
    have hlp : mlookup devices p.1 = some p.2 :=
      mlookup_of_mem_nodup hnd (by simpa using hp)
    exact hpne (hall p.1 (hpull p.1 p.2 hlp hpsn))

/-- Counterexample for claim C6 as stated: both sampleC (id "c") and
sampleD (id "d") have empty serial numbers; an Allocate request listing
exactly "c" nevertheless also grants the user node "ud" of sampleD,
because the expansion only exempts the placeholder serial, not the empty
one, from co-location. -/
theorem C6_counterexample :
    sampleC.SN = "" ∧ sampleD.SN = "" ∧ ("c" : String) ≠ "d" ∧
    Allocate sampleMapEmptySN [["c"]] =
      .ok [⟨[nodeSpec "uc", nodeSpec "ud"], [nodeMount "uc", nodeMount "ud"]⟩] ∧
    nodeSpec sampleD.Nodes.User = nodeSpec "ud" := by
  refine ⟨by decide, by decide, by decide, by rfl, by decide⟩

/-- Witness for C6: on a one-device map the sole empty-serial device with
id "c" is allocatable by its id, and on the two-device empty-serial map
requesting "c" pulls the other empty-serial device "d" into the
expansion. -/
theorem C6_empty_serial_allocatable_witness :
    (mlookup [("c", sampleC)] "c" = some sampleC ∧ sampleC.SN = "") ∧
    isOkE (Allocate [("c", sampleC)] [["c"]]) = true ∧
    (mlookup sampleMapEmptySN "d" = some sampleD ∧ sampleD.SN = "") ∧
    "d" ∈ expandIds sampleMapEmptySN ["c"] :=
  ⟨⟨by decide, by decide⟩,
    (C6_empty_serial_allocatable [("c", sampleC)] "c" sampleC
      (by unfold WellKeyed; decide) (by decide) (by decide) (by decide)).1,
    ⟨by decide, by decide⟩,
    ((C6_empty_serial_allocatable sampleMapEmptySN "c" sampleC
      (by unfold WellKeyed; decide) (by decide) (by decide) (by decide)).2.2.1
      "d" sampleD (by decide) (by decide)).1⟩

/-- The number of device-node grants Allocate emits for one resolved id:
one for the user node plus one each for a present management node and a
present dma node. -/
def specCount (devices : DevMap) (id : String) : Nat :=
  match mlookup devices id with
  | none => 0
  | some d =>
    1 + (if d.Nodes.Mgmt != "" then 1 else 0) + (if d.Nodes.Qdma != "" then 1 else 0)

lemma devMounts_eq_map (d : Device) :
    devMounts d = (devSpecs d).map (fun e => nodeMount e.HostPath) := by
  simp only [devSpecs, devMounts, List.map_append]
  by_cases hm : (d.Nodes.Mgmt != "") = true <;>
    by_cases hq : (d.Nodes.Qdma != "") = true <;>
      simp [hm, hq, nodeSpec, nodeMount]

lemma devSpecs_entry_shape (d : Device) :
    ∀ e ∈ devSpecs d, e.Permissions = "rwm" ∧ e.ContainerPath = e.HostPath := by
  intro e he
  simp only [devSpecs, List.mem_append] at he
  rcases he with (h1 | h1) | h1
  · by_cases hm : (d.Nodes.Mgmt != "") = true
    · rw [if_pos hm] at h1
      have he2 := List.mem_singleton.mp h1
      subst he2
      exact ⟨rfl, rfl⟩
    · rw [if_neg hm] at h1
      cases h1
  · have he2 := List.mem_singleton.mp h1
    subst he2
    exact ⟨rfl, rfl⟩
  · by_cases hq : (d.Nodes.Qdma != "") = true
    · rw [if_pos hq] at h1
      have he2 := List.mem_singleton.mp h1
      subst he2
      exact ⟨rfl, rfl⟩
    · rw [if_neg hq] at h1
      cases h1

lemma devSpecs_length (d : Device) :
    (devSpecs d).length =
      1 + (if d.Nodes.Mgmt != "" then 1 else 0) + (if d.Nodes.Qdma != "" then 1 else 0) := by
  simp only [devSpecs, List.length_append]
  by_cases hm : (d.Nodes.Mgmt != "") = true <;>
    by_cases hq : (d.Nodes.Qdma != "") = true <;> simp [hm, hq]

lemma user_mem_devSpecs (d : Device) : nodeSpec d.Nodes.User ∈ devSpecs d := by
  simp [devSpecs]

lemma mgmt_mem_devSpecs (d : Device) (h : d.Nodes.Mgmt ≠ "") :
    nodeSpec d.Nodes.Mgmt ∈ devSpecs d := by
  simp [devSpecs, h]

lemma qdma_mem_devSpecs (d : Device) (h : d.Nodes.Qdma ≠ "") :
    nodeSpec d.Nodes.Qdma ∈ devSpecs d := by
  simp [devSpecs, h]

lemma allocLoop_ok_shape (devices : DevMap) :
    ∀ (ids : List String) (ds : List DeviceSpec) (ms : List Mount),
      allocLoop devices ids = .ok (ds, ms) →
      (∀ e ∈ ds, e.Permissions = "rwm" ∧ e.ContainerPath = e.HostPath) ∧
      ms = ds.map (fun e => nodeMount e.HostPath) ∧
      ds.length = (ids.map (specCount devices)).sum := by
  intro ids
  induction ids with
  | nil =>
    intro ds ms h
    simp only [allocLoop] at h
    cases h
    exact ⟨by simp, rfl, rfl⟩
  | cons id rest ih =>
    intro ds ms h
    simp only [allocLoop] at h
    cases hm : mlookup devices id with
    | none => rw [hm] at h; cases h
    | some dev =>
      have hde : deviceExists devices id = true := by
        rw [deviceExists_eq_isSome, hm]; rfl
      simp only [hm, hde, Bool.not_true, Bool.false_eq_true, if_false] at h
      cases hrec : allocLoop devices rest with
      | error e2 => rw [hrec] at h; cases h
      | ok pr =>
        rw [hrec] at h
        cases h
        obtain ⟨ih1, ih2, ih3⟩ := ih pr.1 pr.2 (by rw [hrec])
        refine ⟨?_, ?_, ?_⟩
        · intro e he
          rcases List.mem_append.mp he with h1 | h1
          · exact devSpecs_entry_shape dev e h1
          · exact ih1 e h1
        · rw [List.map_append, ← ih2, devMounts_eq_map]
        · simp only [List.length_append, List.map_cons, List.sum_cons, ih3,
            devSpecs_length, specCount, hm]

lemma Allocate_ok_components (devices : DevMap) :
    ∀ (reqs : List (List String)) (resp : List ContainerAllocateResponse),
      Allocate devices reqs = .ok resp →
      resp.length = reqs.length ∧
      ∀ pr ∈ reqs.zip resp,
        allocLoop devices (expandIds devices pr.1) = .ok (pr.2.Devices, pr.2.Mounts) := by
  intro reqs
  induction reqs with
  | nil =>
    intro resp h
    simp only [Allocate] at h
    cases h
    exact ⟨rfl, by simp⟩
  | cons creq rest ih =>
    intro resp h
    simp only [Allocate] at h
    cases hc : allocateContainer devices creq with
    | error e => rw [hc] at h; cases h
    | ok cres =>
      rw [hc] at h
      cases hr : Allocate devices rest with
      | error e => rw [hr] at h; cases h
      | ok l =>
        rw [hr] at h
        cases h
        obtain ⟨ihlen, ihall⟩ := ih l hr
        refine ⟨by simp [ihlen], ?_⟩
        intro pr hpr
        rcases List.mem_cons.mp hpr with h1 | h1
        · subst h1
          unfold allocateContainer at hc
          cases hl : allocLoop devices (expandIds devices creq) with
          | error e => rw [hl] at hc; cases hc
          | ok pr2 =>
            rw [hl] at hc
            cases hc
            rfl
        · exact ihall pr h1

/-- Claim C7: on every successful Allocate call the container responses
correspond one-to-one to the container requests; every emitted device-node
grant has permissions "rwm" and container path equal to host path; the
mount list is exactly the grant list with identical host and container
paths and read-write access; every resolved device contributes its user
node always, its management node when the management path is non-empty,
and its dma node when the dma path is non-empty, and the total number of
grants equals the sum over resolved devices of one plus one per present
optional node. -/
theorem C7_grant_shape (devices : DevMap) (reqs : List (List String))
    (resp : List ContainerAllocateResponse) (h : Allocate devices reqs = .ok resp) :
    resp.length = reqs.length ∧
    ∀ pr ∈ reqs.zip resp,
      (∀ e ∈ pr.2.Devices, e.Permissions = "rwm" ∧ e.ContainerPath = e.HostPath) ∧
      pr.2.Mounts = pr.2.Devices.map (fun e => nodeMount e.HostPath) ∧
      (∀ (id : String) (d : Device), id ∈ expandIds devices pr.1 →
        mlookup devices id = some d →
        nodeSpec d.Nodes.User ∈ pr.2.Devices ∧
        (d.Nodes.Mgmt ≠ "" → nodeSpec d.Nodes.Mgmt ∈ pr.2.Devices) ∧
        (d.Nodes.Qdma ≠ "" → nodeSpec d.Nodes.Qdma ∈ pr.2.Devices)) ∧
      pr.2.Devices.length = ((expandIds devices pr.1).map (specCount devices)).sum := by
  obtain ⟨hlen, hall⟩ := Allocate_ok_components devices reqs resp h
  refine ⟨hlen, ?_⟩
  intro pr hpr
  have hloop := hall pr hpr
  obtain ⟨h1, h2, h3⟩ := allocLoop_ok_shape devices _ _ _ hloop
  refine ⟨h1, h2, ?_, h3⟩
  intro id d hid hld
  have hsub := allocLoop_ok_subset devices _ _ _ hloop id d hid hld
  exact ⟨hsub _ (user_mem_devSpecs d),
    fun hm => hsub _ (mgmt_mem_devSpecs d hm),
    fun hq => hsub _ (qdma_mem_devSpecs d hq)⟩

/-- Witness for C7 on sampleMap: the successful allocation of id "a"
(which co-locates id "b") yields a mount list that is exactly the grant
list with matching host paths. -/
theorem C7_grant_shape_witness :
    Allocate sampleMap [["a"]] =
      .ok [⟨[nodeSpec "ua", nodeSpec "mb", nodeSpec "ub", nodeSpec "qb"],
           [nodeMount "ua", nodeMount "mb", nodeMount "ub", nodeMount "qb"]⟩] ∧
    [nodeMount "ua", nodeMount "mb", nodeMount "ub", nodeMount "qb"] =
      ([nodeSpec "ua", nodeSpec "mb", nodeSpec "ub", nodeSpec "qb"]).map
        (fun e => nodeMount e.HostPath) := by
  constructor
  · rfl
  · exact ((C7_grant_shape sampleMap [["a"]] _ rfl).2
      (["a"], ⟨[nodeSpec "ua", nodeSpec "mb", nodeSpec "ub", nodeSpec "qb"],
               [nodeMount "ua", nodeMount "mb", nodeMount "ub", nodeMount "qb"]⟩)
      (by decide)).2.1

/-- An inventory: the Go map from device type to device map. -/
abbrev Inventory := List (String × DevMap)

/-- reflect.DeepEqual on two Go device maps (server.go line 105): equal
key sets with equal values; entry order is irrelevant, as for Go maps. -/
def deepEqualMap (a b : DevMap) : Bool :=
  a.all (fun p => mlookup b p.1 == some p.2) &&
  b.all (fun p => mlookup a p.1 == some p.2)

/-- The updated classification of checkDeviceUpdate (server.go lines
103-108): device types present in both inventories whose maps are not
deep-equal, stored with the new map. -/
def updatedOf (prev cur : Inventory) : Inventory :=
  prev.filterMap (fun p =>
    match mlookup cur p.1 with
    | some nv => if deepEqualMap p.2 nv then none else some (p.1, nv)
    | none => none)

/-- The removed classification (server.go lines 109-111): device types of
the previous inventory absent from the current one. -/
def removedOf (prev cur : Inventory) : Inventory :=
  prev.filter (fun p => (mlookup cur p.1).isNone)

/-- The added classification (server.go lines 113-115): after the first
loop deletes every device type present in both from the polled map, the
remaining entries are those absent from the previous inventory. -/
def addedOf (prev cur : Inventory) : Inventory :=
  cur.filter (fun p => (mlookup prev p.1).isNone)

/-- The device types checkDeviceUpdate leaves untouched: present in both
inventories with deep-equal maps. -/
def unchangedOf (prev cur : Inventory) : Inventory :=
  prev.filterMap (fun p =>
    match mlookup cur p.1 with
    | some nv => if deepEqualMap p.2 nv then some (p.1, nv) else none
    | none => none)

lemma mem_keysOf_exists {α : Type} {m : List (String × α)} {k : String} :
    k ∈ keysOf m ↔ ∃ v, (k, v) ∈ m := by
  simp only [keysOf, List.mem_map]
  constructor
  · rintro ⟨p, hp, rfl⟩
    exact ⟨p.2, hp⟩
  · rintro ⟨v, hv⟩
    exact ⟨(k, v), hv, rfl⟩

lemma not_mem_keysOf_iff_none {α : Type} {m : List (String × α)} {k : String} :
    k ∉ keysOf m ↔ mlookup m k = none := by
  rw [mem_keysOf_iff_isSome]
  cases h : mlookup m k <;> simp

lemma mem_keysOf_addedOf {A B : Inventory} {k : String} :
    k ∈ keysOf (addedOf A B) ↔ k ∈ keysOf B ∧ k ∉ keysOf A := by
  constructor
  · intro h
    obtain ⟨v, hv⟩ := mem_keysOf_exists.mp h
    rw [addedOf, List.mem_filter] at hv
    refine ⟨mem_keysOf_exists.mpr ⟨v, hv.1⟩, ?_⟩
    rw [not_mem_keysOf_iff_none]
    simpa using hv.2
  · rintro ⟨h1, h2⟩
    obtain ⟨v, hv⟩ := mem_keysOf_exists.mp h1
    rw [not_mem_keysOf_iff_none] at h2
    refine mem_keysOf_exists.mpr ⟨v, ?_⟩
    rw [addedOf, List.mem_filter]
    exact ⟨hv, by simpa using h2⟩

lemma mem_keysOf_removedOf {A B : Inventory} {k : String} :
    k ∈ keysOf (removedOf A B) ↔ k ∈ keysOf A ∧ k ∉ keysOf B := by
  constructor
  · intro h
    obtain ⟨v, hv⟩ := mem_keysOf_exists.mp h
    rw [removedOf, List.mem_filter] at hv
    refine ⟨mem_keysOf_exists.mpr ⟨v, hv.1⟩, ?_⟩
    rw [not_mem_keysOf_iff_none]
    simpa using hv.2
  · rintro ⟨h1, h2⟩
    obtain ⟨v, hv⟩ := mem_keysOf_exists.mp h1
    rw [not_mem_keysOf_iff_none] at h2
    refine mem_keysOf_exists.mpr ⟨v, ?_⟩
    rw [removedOf, List.mem_filter]
    exact ⟨hv, by simpa using h2⟩

lemma mem_keysOf_updatedOf {A B : Inventory} {k : String}
    (hA : (keysOf A).Nodup) :
    k ∈ keysOf (updatedOf A B) ↔ ∃ a2 b2, mlookup A k = some a2 ∧
      mlookup B k = some b2 ∧ deepEqualMap a2 b2 = false := by
  constructor
  · intro h
    obtain ⟨v, hv⟩ := mem_keysOf_exists.mp h
    rw [updatedOf, List.mem_filterMap] at hv
    obtain ⟨p, hp, hm⟩ := hv
    cases hB : mlookup B p.1 with
    | none => rw [hB] at hm; cases hm
    | some nv =>
      simp only [hB] at hm
      by_cases hde : deepEqualMap p.2 nv = true
      · rw [if_pos hde] at hm; cases hm
      · rw [if_neg hde] at hm
        cases hm
        exact ⟨p.2, v, mlookup_of_mem_nodup hA hp, hB,
          Bool.not_eq_true _ ▸ hde⟩
  · rintro ⟨a2, b2, hA2, hB2, hde⟩
    refine mem_keysOf_exists.mpr ⟨b2, ?_⟩
    rw [updatedOf, List.mem_filterMap]
    refine ⟨(k, a2), mlookup_mem hA2, ?_⟩
    simp only [hB2]
    rw [if_neg (by simp [hde])]

lemma mem_keysOf_unchangedOf {A B : Inventory} {k : String}
    (hA : (keysOf A).Nodup) :
    k ∈ keysOf (unchangedOf A B) ↔ ∃ a2 b2, mlookup A k = some a2 ∧
      mlookup B k = some b2 ∧ deepEqualMap a2 b2 = true := by
  constructor
  · intro h
    obtain ⟨v, hv⟩ := mem_keysOf_exists.mp h
    rw [unchangedOf, List.mem_filterMap] at hv
    obtain ⟨p, hp, hm⟩ := hv
    cases hB : mlookup B p.1 with
    | none => rw [hB] at hm; cases hm
    | some nv =>
      simp only [hB] at hm
      by_cases hde : deepEqualMap p.2 nv = true
      · rw [if_pos hde] at hm
        cases hm
        exact ⟨p.2, v, mlookup_of_mem_nodup hA hp, hB, hde⟩
      · rw [if_neg hde] at hm; cases hm
  · rintro ⟨a2, b2, hA2, hB2, hde⟩
    refine mem_keysOf_exists.mpr ⟨b2, ?_⟩
    rw [unchangedOf, List.mem_filterMap]
    refine ⟨(k, a2), mlookup_mem hA2, ?_⟩
    simp only [hB2]
    rw [if_pos hde]

/-- Claim C3: the reconcile step classifies every device type into
exactly one of added, removed, updated, unchanged: the four key sets are
characterized as in the spec, are pairwise disjoint, added, updated and
unchanged together cover the current inventory, and removed, updated and
unchanged together cover the previous one. -/
theorem C3_diff_correctness (A B : Inventory) (hA : (keysOf A).Nodup) :
    (∀ k, k ∈ keysOf (addedOf A B) ↔ k ∈ keysOf B ∧ k ∉ keysOf A) ∧
    (∀ k, k ∈ keysOf (removedOf A B) ↔ k ∈ keysOf A ∧ k ∉ keysOf B) ∧
    (∀ k, k ∈ keysOf (updatedOf A B) ↔ ∃ a2 b2, mlookup A k = some a2 ∧
      mlookup B k = some b2 ∧ deepEqualMap a2 b2 = false) ∧
    (∀ k, k ∈ keysOf (unchangedOf A B) ↔ ∃ a2 b2, mlookup A k = some a2 ∧
      mlookup B k = some b2 ∧ deepEqualMap a2 b2 = true) ∧
    (∀ k, ¬(k ∈ keysOf (addedOf A B) ∧ k ∈ keysOf (removedOf A B))) ∧
    (∀ k, ¬(k ∈ keysOf (addedOf A B) ∧ k ∈ keysOf (updatedOf A B))) ∧
    (∀ k, ¬(k ∈ keysOf (addedOf A B) ∧ k ∈ keysOf (unchangedOf A B))) ∧
    (∀ k, ¬(k ∈ keysOf (removedOf A B) ∧ k ∈ keysOf (updatedOf A B))) ∧
    (∀ k, ¬(k ∈ keysOf (removedOf A B) ∧ k ∈ keysOf (unchangedOf A B))) ∧
    (∀ k, ¬(k ∈ keysOf (updatedOf A B) ∧ k ∈ keysOf (unchangedOf A B))) ∧
    (∀ k, k ∈ keysOf B ↔ (k ∈ keysOf (addedOf A B) ∨ k ∈ keysOf (updatedOf A B) ∨
      k ∈ keysOf (unchangedOf A B))) ∧
    (∀ k, k ∈ keysOf A ↔ (k ∈ keysOf (removedOf A B) ∨ k ∈ keysOf (updatedOf A B) ∨
      k ∈ keysOf (unchangedOf A B))) := by
  have hAdd : ∀ k : String, k ∈ keysOf (addedOf A B) ↔ k ∈ keysOf B ∧ k ∉ keysOf A :=
    fun k => mem_keysOf_addedOf
  have hRem : ∀ k : String, k ∈ keysOf (removedOf A B) ↔ k ∈ keysOf A ∧ k ∉ keysOf B :=
    fun k => mem_keysOf_removedOf
  have hUpd : ∀ k : String, k ∈ keysOf (updatedOf A B) ↔ ∃ a2 b2,
      mlookup A k = some a2 ∧ mlookup B k = some b2 ∧ deepEqualMap a2 b2 = false :=
    fun k => mem_keysOf_updatedOf hA
  have hUnc : ∀ k : String, k ∈ keysOf (unchangedOf A B) ↔ ∃ a2 b2,
      mlookup A k = some a2 ∧ mlookup B k = some b2 ∧ deepEqualMap a2 b2 = true :=
    fun k => mem_keysOf_unchangedOf hA
  have hUpdA : ∀ k : String, k ∈ keysOf (updatedOf A B) → k ∈ keysOf A ∧ k ∈ keysOf B := by
    intro k h
    obtain ⟨a2, b2, h1, h2, _⟩ := (hUpd k).mp h
    exact ⟨(mem_keysOf_iff_isSome ..).mpr (by rw [h1]; rfl),
      (mem_keysOf_iff_isSome ..).mpr (by rw [h2]; rfl)⟩
  have hUncA : ∀ k : String, k ∈ keysOf (unchangedOf A B) → k ∈ keysOf A ∧ k ∈ keysOf B := by
    intro k h
    obtain ⟨a2, b2, h1, h2, _⟩ := (hUnc k).mp h
    exact ⟨(mem_keysOf_iff_isSome ..).mpr (by rw [h1]; rfl),
      (mem_keysOf_iff_isSome ..).mpr (by rw [h2]; rfl)⟩
  refine ⟨hAdd, hRem, hUpd, hUnc, ?_, ?_, ?_, ?_, ?_, ?_, ?_, ?_⟩
  · intro k ⟨h1, h2⟩
    exact ((hAdd k).mp h1).2 ((hRem k).mp h2).1
  · intro k ⟨h1, h2⟩
    exact ((hAdd k).mp h1).2 (hUpdA k h2).1
  · intro k ⟨h1, h2⟩
    exact ((hAdd k).mp h1).2 (hUncA k h2).1
  · intro k ⟨h1, h2⟩
    exact ((hRem k).mp h1).2 (hUpdA k h2).2
  · intro k ⟨h1, h2⟩
    exact ((hRem k).mp h1).2 (hUncA k h2).2
  · intro k ⟨h1, h2⟩
    obtain ⟨a2, b2, ha2, hb2, hde⟩ := (hUpd k).mp h1
    obtain ⟨a3, b3, ha3, hb3, hde2⟩ := (hUnc k).mp h2
    rw [ha2] at ha3
    rw [hb2] at hb3
    cases ha3
    cases hb3
    rw [hde] at hde2
    cases hde2
  · intro k
    constructor
    · intro hB
      by_cases hA2 : k ∈ keysOf A
      · obtain ⟨a2, ha2⟩ := Option.isSome_iff_exists.mp ((mem_keysOf_iff_isSome ..).mp hA2)
        obtain ⟨b2, hb2⟩ := Option.isSome_iff_exists.mp ((mem_keysOf_iff_isSome ..).mp hB)
        cases hde : deepEqualMap a2 b2 with
        | true => exact Or.inr (Or.inr ((hUnc k).mpr ⟨a2, b2, ha2, hb2, hde⟩))
        | false => exact Or.inr (Or.inl ((hUpd k).mpr ⟨a2, b2, ha2, hb2, hde⟩))
      · exact Or.inl ((hAdd k).mpr ⟨hB, hA2⟩)
    · rintro (h | h | h)
      · exact ((hAdd k).mp h).1
      · exact (hUpdA k h).2
      · exact (hUncA k h).2
  · intro k
    constructor
    · intro hA2
      by_cases hB : k ∈ keysOf B
      · obtain ⟨a2, ha2⟩ := Option.isSome_iff_exists.mp ((mem_keysOf_iff_isSome ..).mp hA2)
        obtain ⟨b2, hb2⟩ := Option.isSome_iff_exists.mp ((mem_keysOf_iff_isSome ..).mp hB)
        cases hde : deepEqualMap a2 b2 with
        | true => exact Or.inr (Or.inr ((hUnc k).mpr ⟨a2, b2, ha2, hb2, hde⟩))
        | false => exact Or.inr (Or.inl ((hUpd k).mpr ⟨a2, b2, ha2, hb2, hde⟩))
      · exact Or.inl ((hRem k).mpr ⟨hA2, hB⟩)
    · rintro (h | h | h)
      · exact ((hRem k).mp h).1
      · exact (hUpdA k h).1
      · exact (hUncA k h).1

/-- Previous inventory used in the C3 witness. -/
def invPrev : Inventory := [("t1", [("a", sampleA)]), ("t2", [("b", sampleB)])]

/-- Current inventory used in the C3 witness. -/
def invCur : Inventory := [("t1", [("a", sampleA)]), ("t3", [("c", sampleC)])]

/-- Witness for C3 on concrete inventories: the device type "t3", present
only in the current inventory, is classified as added. -/
theorem C3_diff_correctness_witness :
    (keysOf invPrev).Nodup ∧
    ("t3" ∈ keysOf (addedOf invPrev invCur) ↔
      "t3" ∈ keysOf invCur ∧ "t3" ∉ keysOf invPrev) :=
  ⟨by decide, (C3_diff_correctness invPrev invCur (by decide)).1 "t3"⟩

/-- The plugin socket directory (pluginapi.DevicePluginPath). -/
def serverSockPath : String := "/var/lib/kubelet/device-plugins/"

/-- The per-device-type server struct, with the fields the modelled
operations touch: identification, the device map, the socket path, the
gRPC server handle (none models a nil pointer), and whether the stop and
update channels have been closed. -/
structure FPGADevicePluginServer where
  devType : String
  devices : DevMap
  socket : String
  server : Option Unit
  stopClosed : Bool
  updateClosed : Bool
deriving DecidableEq, Repr

/-- NewFPGADevicePluginServer (server.go lines 147-155): a fresh server
with no gRPC server and open channels; the socket path is derived from
the device type by path.Join(serverSockPath, devType + "-fpga.sock"). -/
def NewFPGADevicePluginServer (devType : String) (devices : DevMap) :
    FPGADevicePluginServer :=
  ⟨devType, devices, serverSockPath ++ devType ++ "-fpga.sock", none, false, false⟩

/-- Go map assignment m[k] = v: replace the entry when the key is
present, append a new entry otherwise. -/
def upsert {α : Type} : List (String × α) → String → α → List (String × α)
  | [], k, v => [(k, v)]
  | (k2, v2) :: rest, k, v =>
    if k2 = k then (k2, v) :: rest else (k2, v2) :: upsert rest k v

/-- Go delete(m, k): drop the entry with key k. -/
def eraseKey {α : Type} (m : List (String × α)) (k : String) : List (String × α) :=
  m.filter (fun p => p.1 != k)

/-- The FPGADevicePlugin state (server.go lines 49-53): the stored
inventory and the server registry.  The update channel is the input fed
to checkDeviceUpdate. -/
structure FPGADevicePlugin where
  devices : Inventory
  servers : List (String × FPGADevicePluginServer)
deriving Repr

/-- One iteration of the added loop of checkDeviceUpdate (server.go lines
118-129): create a server and store both map entries.  The asynchronous
Serve call is an effect outside this state model. -/
def applyAdded (st : FPGADevicePlugin) (p : String × DevMap) : FPGADevicePlugin :=
  ⟨upsert st.devices p.1 p.2,
    upsert st.servers p.1 (NewFPGADevicePluginServer p.1 p.2)⟩

/-- One iteration of the removed loop of checkDeviceUpdate (server.go
lines 132-137): stop the server and delete both map entries. -/
def applyRemoved (st : FPGADevicePlugin) (p : String × DevMap) : FPGADevicePlugin :=
  ⟨eraseKey st.devices p.1, eraseKey st.servers p.1⟩

/-- One iteration of the updated loop of checkDeviceUpdate (server.go
lines 140-143): store the new device map and push it to the existing
server; the registry is not modified. -/
def applyUpdated (st : FPGADevicePlugin) (p : String × DevMap) : FPGADevicePlugin :=
  ⟨upsert st.devices p.1 p.2, st.servers⟩

/-- checkDeviceUpdate (server.go lines 98-144): classify the polled
inventory against the stored one, then run the added, removed and updated
loops in order. -/
def checkDeviceUpdate (st : FPGADevicePlugin) (n : Inventory) : FPGADevicePlugin :=
  (updatedOf st.devices n).foldl applyUpdated
    ((removedOf st.devices n).foldl applyRemoved
      ((addedOf st.devices n).foldl applyAdded st))

/-- The plugin state NewFPGADevicePlugin starts from (server.go lines
56-63): empty inventory, empty registry. -/
def initialPlugin : FPGADevicePlugin := ⟨[], []⟩

/-- The registry invariant: a server entry exists for a device type
exactly when the device type is present in the stored inventory. -/
def registryInv (st : FPGADevicePlugin) : Prop :=
  ∀ k, k ∈ keysOf st.servers ↔ k ∈ keysOf st.devices

lemma mem_keysOf_upsert {α : Type} (m : List (String × α)) (k : String) (v : α)
    (a : String) : a ∈ keysOf (upsert m k v) ↔ a ∈ keysOf m ∨ a = k := by
  induction m with
  | nil => simp [upsert, keysOf]
  | cons p rest ih =>
    obtain ⟨k2, v2⟩ := p
    by_cases hk : k2 = k
    · subst hk
      have hred : upsert ((k2, v2) :: rest) k2 v = (k2, v) :: rest := by
        simp [upsert]
      rw [hred]
      simp only [keysOf, List.map_cons, List.mem_cons]
      tauto
    · have ih2 := ih
      simp only [keysOf] at ih2
      simp only [upsert, if_neg hk, keysOf, List.map_cons, List.mem_cons, ih2]
      tauto

lemma mem_keysOf_eraseKey {α : Type} (m : List (String × α)) (k : String)
    (a : String) : a ∈ keysOf (eraseKey m k) ↔ a ∈ keysOf m ∧ a ≠ k := by
  simp only [keysOf, eraseKey, List.mem_map]
  constructor
  · rintro ⟨p, hp, rfl⟩
    rw [List.mem_filter] at hp
    exact ⟨⟨p, hp.1, rfl⟩, by simpa using hp.2⟩
  · rintro ⟨⟨p, hp, rfl⟩, hne⟩
    refine ⟨p, ?_, rfl⟩
    rw [List.mem_filter]
    exact ⟨hp, by simpa using hne⟩

lemma foldl_applyAdded_inv (L : Inventory) :
    ∀ st, registryInv st → registryInv (L.foldl applyAdded st) := by
  induction L with
  | nil => intro st h; exact h
  | cons p rest ih =>
    intro st h
    simp only [List.foldl_cons]
    apply ih
    intro k
    simp only [applyAdded, mem_keysOf_upsert]
    rw [h k]

lemma foldl_applyRemoved_inv (L : Inventory) :
    ∀ st, registryInv st → registryInv (L.foldl applyRemoved st) := by
  induction L with
  | nil => intro st h; exact h
  | cons p rest ih =>
    intro st h
    simp only [List.foldl_cons]
    apply ih
    intro k
    simp only [applyRemoved, mem_keysOf_eraseKey]
    rw [h k]

lemma foldl_applyUpdated_inv (L : Inventory) :
    ∀ st, registryInv st → (∀ p ∈ L, p.1 ∈ keysOf st.devices) →
      registryInv (L.foldl applyUpdated st) := by
  induction L with
  | nil => intro st h _; exact h
  | cons p rest ih =>
    intro st h hall
    simp only [List.foldl_cons]
    have hp1 : p.1 ∈ keysOf st.devices := hall p (List.mem_cons_self ..)
    apply ih
    · intro k
      simp only [applyUpdated, mem_keysOf_upsert]
      rw [h k]
      constructor
      · exact Or.inl
      · rintro (h2 | h2)
        · exact h2
        · exact h2 ▸ hp1
    · intro q hq
      simp only [applyUpdated, mem_keysOf_upsert]
      exact Or.inl (hall q (List.mem_cons_of_mem _ hq))

lemma foldl_applyAdded_devices_mono (L : Inventory) :
    ∀ st (a : String), a ∈ keysOf st.devices →
      a ∈ keysOf (L.foldl applyAdded st).devices := by
  induction L with
  | nil => intro st a h; exact h
  | cons p rest ih =>
    intro st a h
    simp only [List.foldl_cons]
    exact ih _ a (by simp only [applyAdded, mem_keysOf_upsert]; exact Or.inl h)

lemma foldl_applyRemoved_devices_keep (L : Inventory) :
    ∀ st (a : String), a ∈ keysOf st.devices → (∀ p ∈ L, p.1 ≠ a) →
      a ∈ keysOf (L.foldl applyRemoved st).devices := by
  induction L with
  | nil => intro st a h _; exact h
  | cons p rest ih =>
    intro st a h hall
    simp only [List.foldl_cons]
    apply ih
    · simp only [applyRemoved, mem_keysOf_eraseKey]
      exact ⟨h, fun hEq => hall p (List.mem_cons_self ..) hEq.symm⟩
    · intro q hq
      exact hall q (List.mem_cons_of_mem _ hq)

lemma mem_updatedOf_props {A B : Inventory} {p : String × DevMap}
    (h : p ∈ updatedOf A B) : p.1 ∈ keysOf A ∧ (mlookup B p.1).isSome := by
  unfold updatedOf at h
  rw [List.mem_filterMap] at h
  obtain ⟨q, hq, hm⟩ := h
  cases hB : mlookup B q.1 with
  | none =>
    simp only [hB] at hm
    cases hm
  | some nv =>
    simp only [hB] at hm
    by_cases hde : deepEqualMap q.2 nv = true
    · rw [if_pos hde] at hm; cases hm
    · rw [if_neg hde] at hm
      cases hm
      refine ⟨?_, by rw [hB]; rfl⟩
      simpa [keysOf] using List.mem_map_of_mem Prod.fst hq

lemma mem_removedOf_props {A B : Inventory} {p : String × DevMap}
    (h : p ∈ removedOf A B) : mlookup B p.1 = none := by
  unfold removedOf at h
  rw [List.mem_filter] at h
  simpa using h.2

lemma checkDeviceUpdate_inv (st : FPGADevicePlugin) (n : Inventory)
    (h : registryInv st) : registryInv (checkDeviceUpdate st n) := by
  unfold checkDeviceUpdate
  apply foldl_applyUpdated_inv
  · exact foldl_applyRemoved_inv _ _ (foldl_applyAdded_inv _ _ h)
  · intro p hp
    obtain ⟨hpA, hpB⟩ := mem_updatedOf_props hp
    apply foldl_applyRemoved_devices_keep
    · exact foldl_applyAdded_devices_mono _ _ _ hpA
    · intro q hq hEq
      have hnone := mem_removedOf_props hq
      rw [hEq] at hnone
      rw [hnone] at hpB
      cases hpB

/-- Claim C4: starting from the empty plugin state, after every sequence
of reconcile cycles the key set of the server registry equals the key set
of the stored inventory: a server exists for a device type exactly when
that device type is present in the inventory. -/
theorem C4_registry_invariant (updates : List Inventory) :
    ∀ k, k ∈ keysOf ((updates.foldl checkDeviceUpdate initialPlugin).servers) ↔
      k ∈ keysOf ((updates.foldl checkDeviceUpdate initialPlugin).devices) := by
  have aux : ∀ (L : List Inventory) (st : FPGADevicePlugin), registryInv st →
      registryInv (L.foldl checkDeviceUpdate st) := by
    intro L
    induction L with
    | nil => intro st h; exact h
    | cons n rest ih =>
      intro st h
      simp only [List.foldl_cons]
      exact ih _ (checkDeviceUpdate_inv st n h)
  exact aux updates initialPlugin (fun k => Iff.rfl)

/-- os.Remove on the modelled filesystem (the list of existing paths):
removing an existing path deletes it and succeeds; removing a missing
path reports a not-exist error, the only failure mode in this model. -/
def osRemove (fs : List String) (p : String) : List String × Bool :=
  (fs.filter (fun q => q != p), fs.contains p)

/-- cleanup (server.go lines 239-245): remove the socket path, ignoring a
not-exist error; in this filesystem model cleanup therefore never returns
an error. -/
def cleanup (m : FPGADevicePluginServer) (fs : List String) :
    List String × Option String :=
  ((osRemove fs m.socket).1, none)

/-- The outcome of one Stop call: the new server state, the new
filesystem, the returned error, and whether the call ran cleanup. -/
structure StopResult where
  state : FPGADevicePluginServer
  fs : List String
  err : Option String
  ranCleanup : Bool
deriving DecidableEq, Repr

/-- Stop (server.go lines 226-237): with a nil gRPC server it returns nil
immediately with no side effects; otherwise it stops and clears the gRPC
server, closes the stop and update channels, and runs cleanup. -/
def Stop (m : FPGADevicePluginServer) (fs : List String) : StopResult :=
  match m.server with
  | none => ⟨m, fs, none, false⟩
  | some _ =>
    let m2 : FPGADevicePluginServer :=
      { m with server := none, stopClosed := true, updateClosed := true }
    let c := cleanup m2 fs
    ⟨m2, c.1, c.2, true⟩

/-- Claim C8: Stop is idempotent: for every server state and filesystem
the first call returns nil; a second call returns nil, runs no cleanup
and changes neither the state nor the filesystem, so the endpoint
artifact is removed at most once; on a never-started server (nil gRPC
handle) the first call already has no side effects, while on a started
server the first call removes the socket path. -/
theorem C8_idempotent_stop (m : FPGADevicePluginServer) (fs : List String) :
    (Stop m fs).err = none ∧
    (Stop (Stop m fs).state (Stop m fs).fs).err = none ∧
    (Stop (Stop m fs).state (Stop m fs).fs).ranCleanup = false ∧
    (Stop (Stop m fs).state (Stop m fs).fs).state = (Stop m fs).state ∧
    (Stop (Stop m fs).state (Stop m fs).fs).fs = (Stop m fs).fs ∧
    (m.server = none → (Stop m fs).state = m ∧ (Stop m fs).fs = fs ∧
      (Stop m fs).ranCleanup = false) ∧
    (m.server ≠ none → (Stop m fs).ranCleanup = true ∧
      (Stop m fs).fs = fs.filter (fun q => q != m.socket)) := by
  cases hs : m.server with
  | none => simp [Stop, hs]
  | some u => simp [Stop, hs, cleanup, osRemove]

/-- A started server used in the C8 witness. -/
def sampleServer : FPGADevicePluginServer :=
  ⟨"v1-t1", sampleMap, serverSockPath ++ "v1-t1-fpga.sock", some (), false, false⟩

/-- Witness for C8 on a started server whose socket exists: the first
Stop succeeds and removes the artifact, the second runs no cleanup. -/
theorem C8_idempotent_stop_witness :
    sampleServer.server ≠ none ∧
    (Stop sampleServer [sampleServer.socket]).err = none ∧
    (Stop sampleServer [sampleServer.socket]).ranCleanup = true ∧
    (Stop (Stop sampleServer [sampleServer.socket]).state
      (Stop sampleServer [sampleServer.socket]).fs).ranCleanup = false :=
  ⟨by decide,
    (C8_idempotent_stop sampleServer [sampleServer.socket]).1,
    ((C8_idempotent_stop sampleServer [sampleServer.socket]).2.2.2.2.2.2
      (by decide)).1,
    (C8_idempotent_stop sampleServer [sampleServer.socket]).2.2.1⟩

end FPGAPlugin
